import Mathlib

/-!
Verification of `pointillism_gcode_generator.py`: a shallow embedding of the
image-to-toolpath pipeline (palette classification, CMYK conversion,
Floyd-Steinberg error diffusion, serpentine traversal, re-dip sequencing and
G-code emission) together with theorems about the spec's claims.

Python floats are modelled as exact rationals; the only genuinely
transcendental operation, `math.hypot`, is kept abstract as a distance
parameter `dist` (no claim depends on its actual values beyond
`dist x y x y = 0`).
-/

namespace Pointillism

/-! ### Machine constants (verbatim from the source header) -/

def STATION_X0 : ℚ := 0
def STATION_Y0 : ℚ := 400
def STATION_DX : ℚ := 100
def STATION_DY : ℚ := 0

def DIP_OFFSET_X : ℚ := 0
def DIP_OFFSET_Y : ℚ := 0
def DIP_OFFSET_Z : ℚ := -3

def BLOT_OFFSET_X : ℚ := 0
def BLOT_OFFSET_Y : ℚ := 60
def BLOT_OFFSET_Z : ℚ := -2

def Z_PICK : ℚ := -5
def Z_SAFE : ℚ := 15
def Z_TRAVEL : ℚ := 10
def Z_PREPAINT : ℚ := 2
def Z_PAINT : ℚ := -1

def FEED_TRAVEL : ℚ := 2500
def FEED_Z : ℚ := 600
def DAB_DWELL_S : ℚ := 1/20
def RE_DIP_EVERY_N_DOTS : ℕ := 120
def RE_DIP_AFTER_TRAVEL_MM : ℚ := 180
def CLEAN_AT_END : Bool := true

def TIME_SCALE : ℚ := 1000

def WHITE_THRESHOLD : ℕ := 240

def COLOR_ORDER_RGB6 : List String :=
  ["black", "blue", "red", "green", "yellow", "white"]
def COLOR_ORDER_CMYK : List String :=
  ["yellow", "magenta", "cyan", "black"]

/-- The `PALETTE_RGB` dict, as an association list in Python dict insertion
order (red, green, blue, yellow, black, white): `dict.items()` iterates in
insertion order, which is what `nearest_palette_color` folds over. -/
def PALETTE_RGB : List (String × ℕ × ℕ × ℕ) :=
  [("red", (220, 20, 60)),
   ("green", (34, 139, 34)),
   ("blue", (30, 144, 255)),
   ("yellow", (255, 215, 0)),
   ("black", (0, 0, 0)),
   ("white", (255, 255, 255))]

/-! ### Nearest-palette-color classification -/

/-- Squared Euclidean RGB distance `(r-R)**2 + (g-G)**2 + (b-B)**2`
(Python ints are exact; we compute in `ℤ`). -/
def d2rgb (r g b : ℕ) (c : ℕ × ℕ × ℕ) : ℤ :=
  ((r : ℤ) - c.1) ^ 2 + ((g : ℤ) - c.2.1) ^ 2 + ((b : ℤ) - c.2.2) ^ 2

/-- One step of the `for name,(R,G,B) in PALETTE_RGB.items()` loop:
update `(best, best_d2)` when `d2 < best_d2` (strict). -/
def npcStep (r g b : ℕ) (acc : Option String × ℤ) (e : String × ℕ × ℕ × ℕ) :
    Option String × ℤ :=
  if d2rgb r g b e.2 < acc.2 then (some e.1, d2rgb r g b e.2) else acc

/-- `nearest_palette_color` from the source: fold over the palette dict in
insertion order starting from `(None, 1e18)`; returns the final `best`
(`none` would correspond to Python returning `None`, which never happens). -/
def nearest_palette_color (r g b : ℕ) : Option String :=
  (PALETTE_RGB.foldl (npcStep r g b) (none, 10 ^ 18)).1

/-- Modelled from the spec (claim C2's tie-break): the palette color earliest
in palette order (black, blue, red, green, yellow, white) among those of
minimal squared distance; realised as the same strict-minimum fold but taken
over `COLOR_ORDER_RGB6`. -/
def palette_rgb_of (c : String) : ℕ × ℕ × ℕ :=
  ((PALETTE_RGB.find? (fun e => e.1 = c)).map (fun e => e.2)).getD (0, 0, 0)

/-- Modelled from the spec: nearest color with ties broken by palette order
(black, blue, red, green, yellow, white). -/
def spec_nearest (r g b : ℕ) : Option String :=
  ((COLOR_ORDER_RGB6.map (fun c => (c, palette_rgb_of c))).foldl
    (npcStep r g b) (none, 10 ^ 18)).1

/-! ### Subtractive (CMYK) conversion -/

/-- `rgb_to_cmyk` from the source, over exact rationals. -/
def rgb_to_cmyk (r g b : ℕ) : ℚ × ℚ × ℚ × ℚ :=
  let R : ℚ := r / 255
  let G : ℚ := g / 255
  let B : ℚ := b / 255
  let K : ℚ := 1 - max (max R G) B
  if 1 ≤ K then (0, 0, 0, 1)
  else ((1 - R - K) / (1 - K), (1 - G - K) / (1 - K), (1 - B - K) / (1 - K), K)

/-! ### Serpentine traversal -/

/-- `serpentine_indices` from the source: for each row `j`, the row
`[(0,j),...,(w-1,j)]`, reversed when `j` is odd. -/
def serpentine_indices (w h : ℕ) : List (ℕ × ℕ) :=
  (List.range h).flatMap (fun j =>
    let row := (List.range w).map (fun i => (i, j))
    if j % 2 = 1 then row.reverse else row)

/-! ### Stations -/

structure Station where
  name : String
  x : ℚ
  y : ℚ
  z_pick : ℚ
  z_safe : ℚ
  dip_x : ℚ
  dip_y : ℚ
  dip_z : ℚ
  blot_x : ℚ
  blot_y : ℚ
  blot_z : ℚ
  dip_dwell_s : ℚ
  blot_dwell_s : ℚ
  deriving DecidableEq

/-- The station built for the color at index `i` of the palette,
as in `make_stations`. -/
def make_station (i : ℕ) (color : String) : Station :=
  let x : ℚ := STATION_X0 + i * STATION_DX
  let y : ℚ := STATION_Y0 + i * STATION_DY
  { name := color, x := x, y := y,
    z_pick := Z_PICK, z_safe := Z_SAFE,
    dip_x := x + DIP_OFFSET_X, dip_y := y + DIP_OFFSET_Y, dip_z := DIP_OFFSET_Z,
    blot_x := x + BLOT_OFFSET_X, blot_y := y + BLOT_OFFSET_Y, blot_z := BLOT_OFFSET_Z,
    dip_dwell_s := 1, blot_dwell_s := 1/2 }

/-- `make_stations(palette)` as a lookup function: `stations[color]`. -/
def station_of (palette : List String) (color : String) : Station :=
  make_station (palette.indexOf color) color

/-! ### Instructions

Each emitted G-code line is one constructor: a line is either a pure X/Y
move, a pure Z move, a dwell, a comment or a modal/program word — no line
carries both an X/Y target and a Z target, mirroring the source's
`move_xy` / `move_z` helpers. -/

inductive Instr where
  | comment (s : String)
  | g21
  | g90
  | g94
  | moveXY (x y f : ℚ)
  | moveZ (z f : ℚ)
  | rapidZ (z : ℚ)
  | g0xy (x y : ℚ)
  | dwellMs (ms : ℚ)
  | m2
  deriving DecidableEq

/-- Arguments of `gen_gcode` coming from the CLI. -/
structure GArgs where
  origin_x : ℚ
  origin_y : ℚ
  margin_mm : ℚ
  dot_pitch_mm : ℚ
  deriving DecidableEq

def xy_of_pixel (args : GArgs) (px py : ℕ) : ℚ × ℚ :=
  (args.origin_x + args.margin_mm + px * args.dot_pitch_mm,
   args.origin_y + args.margin_mm + py * args.dot_pitch_mm)

def pickup_instrs (st : Station) : List Instr :=
  [Instr.comment ("(Pickup " ++ st.name ++ ")"),
   Instr.moveXY st.x st.y FEED_TRAVEL,
   Instr.moveZ st.z_safe FEED_Z,
   Instr.moveZ st.z_pick FEED_Z,
   Instr.dwellMs ((3/10) * TIME_SCALE),
   Instr.moveZ st.z_safe FEED_Z]

def return_instrs (st : Station) : List Instr :=
  [Instr.comment ("(Return " ++ st.name ++ ")"),
   Instr.moveXY st.x st.y FEED_TRAVEL,
   Instr.moveZ st.z_safe FEED_Z,
   Instr.moveZ st.z_pick FEED_Z,
   Instr.dwellMs ((3/10) * TIME_SCALE),
   Instr.moveZ st.z_safe FEED_Z]

def dip_instrs (st : Station) : List Instr :=
  [Instr.comment ("(Dip " ++ st.name ++ ")"),
   Instr.moveXY st.dip_x st.dip_y FEED_TRAVEL,
   Instr.moveZ st.z_safe FEED_Z,
   Instr.moveZ st.dip_z FEED_Z,
   Instr.dwellMs (st.dip_dwell_s * TIME_SCALE),
   Instr.moveZ st.z_safe FEED_Z,
   Instr.moveXY st.blot_x st.blot_y FEED_TRAVEL,
   Instr.moveZ st.z_safe FEED_Z,
   Instr.moveZ st.blot_z FEED_Z,
   Instr.dwellMs (st.blot_dwell_s * TIME_SCALE),
   Instr.moveZ st.z_safe FEED_Z]

def paint_dot_instrs (x y dwell_s : ℚ) : List Instr :=
  [Instr.moveXY x y FEED_TRAVEL,
   Instr.moveZ Z_PREPAINT FEED_Z,
   Instr.moveZ Z_PAINT FEED_Z,
   Instr.dwellMs (dwell_s * TIME_SCALE),
   Instr.moveZ Z_TRAVEL FEED_Z]

def clean_instrs (st : Station) : List Instr :=
  [Instr.moveXY st.blot_x st.blot_y FEED_TRAVEL,
   Instr.moveZ st.z_safe FEED_Z,
   Instr.moveZ st.blot_z FEED_Z,
   Instr.dwellMs ((3/10) * TIME_SCALE),
   Instr.moveZ st.z_safe FEED_Z]

/-! ### The per-color dab loop (sequencer)

The loop body of `gen_gcode` over the serpentine-filtered points, abstracted
to dip/dab actions.  `dist` stands for `math.hypot` (floating-point square
root, kept abstract); `nDots`/`travelT` are the `RE_DIP_EVERY_N_DOTS` /
`RE_DIP_AFTER_TRAVEL_MM` thresholds. -/

inductive DabAct where
  | redip
  | dab (x y : ℚ)
  deriving DecidableEq

/-- The `for (px,py) in serp` loop of `gen_gcode`, over positions already
converted to mm: state is `(dots_since, travel_since, last)`. -/
def dab_actions (dist : ℚ → ℚ → ℚ → ℚ → ℚ) (nDots : ℕ) (travelT : ℚ) :
    ℕ → ℚ → Option (ℚ × ℚ) → List (ℚ × ℚ) → List DabAct
  | _, _, _, [] => []
  | ds, ts, last, p :: rest =>
    let ts1 : ℚ := match last with
      | none => ts
      | some q => ts + dist q.1 q.2 p.1 p.2
    if nDots ≤ ds ∨ (0 < travelT ∧ travelT ≤ ts1) then
      DabAct.redip :: DabAct.dab p.1 p.2 ::
        dab_actions dist nDots travelT 1 0 (some p) rest
    else
      DabAct.dab p.1 p.2 ::
        dab_actions dist nDots travelT (ds + 1) ts1 (some p) rest

/-- Modelled from the spec (claim C3): before each dab, add the travel from
the previous dab position (no contribution before the first dab); insert a
redip exactly when the dab counter has reached the count threshold or the
travel threshold is positive and cumulative travel has reached it; reset
both counters to zero at a redip; the emitted dab then counts one. -/
def spec_dab_actions (dist : ℚ → ℚ → ℚ → ℚ → ℚ) (nDots : ℕ) (travelT : ℚ) :
    ℕ → ℚ → Option (ℚ × ℚ) → List (ℚ × ℚ) → List DabAct
  | _, _, _, [] => []
  | c, t, last, p :: rest =>
    let t1 : ℚ := t + (match last with
      | none => 0
      | some q => dist q.1 q.2 p.1 p.2)
    if c ≥ nDots ∨ (travelT > 0 ∧ t1 ≥ travelT) then
      DabAct.redip :: DabAct.dab p.1 p.2 ::
        spec_dab_actions dist nDots travelT (0 + 1) (0 : ℚ) (some p) rest
    else
      DabAct.dab p.1 p.2 ::
        spec_dab_actions dist nDots travelT (c + 1) t1 (some p) rest

def act_instrs (st : Station) : DabAct → List Instr
  | DabAct.redip => dip_instrs st
  | DabAct.dab x y => paint_dot_instrs x y DAB_DWELL_S

/-- One color's contribution to the stream (`continue` when it has no
points). -/
def color_block (cp : String → List (ℕ × ℕ)) (gc gr : ℕ)
    (stations : String → Station) (args : GArgs)
    (dist : ℚ → ℚ → ℚ → ℚ → ℚ) (nDots : ℕ) (travelT : ℚ)
    (color : String) : List Instr :=
  let pts := cp color
  if pts = [] then []
  else
    let st := stations color
    let mmPts := ((serpentine_indices gc gr).filter (fun p => p ∈ pts)).map
      (fun p => xy_of_pixel args p.1 p.2)
    Instr.comment ("(=== " ++ color ++ " " ++ toString pts.length ++
        " dots ===)") ::
      (pickup_instrs st ++ dip_instrs st ++
        ((dab_actions dist nDots travelT 0 0 none mmPts).flatMap
          (act_instrs st)) ++
        (if CLEAN_AT_END then clean_instrs st else []) ++
        return_instrs st)

/-- `gen_gcode` from the source: preamble, per-color passes in palette
order, postamble. -/
def gen_gcode (cp : String → List (ℕ × ℕ)) (color_order : List String)
    (gc gr : ℕ) (stations : String → Station) (args : GArgs)
    (dist : ℚ → ℚ → ℚ → ℚ → ℚ) (nDots : ℕ) (travelT : ℚ) : List Instr :=
  [Instr.comment ("(Pointillism painting)"),
   Instr.comment ("(Grid " ++ toString gc ++ "x" ++ toString gr ++ ")"),
   Instr.g21, Instr.g90, Instr.g94,
   Instr.rapidZ Z_TRAVEL] ++
  color_order.flatMap (color_block cp gc gr stations args dist nDots travelT) ++
  [Instr.rapidZ Z_TRAVEL, Instr.g0xy 0 0, Instr.m2]

/-! ### The safe-height checker -/

/-- Does this instruction command horizontal (X/Y) motion? -/
def isXY : Instr → Bool
  | Instr.moveXY _ _ _ => true
  | Instr.g0xy _ _ => true
  | _ => false

/-- Does this instruction command vertical (Z) motion? -/
def isZMove : Instr → Bool
  | Instr.moveZ _ _ => true
  | Instr.rapidZ _ => true
  | _ => false

/-- Tracked vertical position after executing one instruction. -/
def trackZ (z : ℚ) : Instr → ℚ
  | Instr.moveZ z1 _ => z1
  | Instr.rapidZ z1 => z1
  | _ => z

/-- Final tracked Z after a stream, starting from `z`. -/
def finalZ (z : ℚ) (l : List Instr) : ℚ := l.foldl trackZ z

/-- Scan a stream tracking Z: every horizontal move must happen with the
tracked Z at or above the travel height. -/
def zOK (z : ℚ) : List Instr → Bool
  | [] => true
  | i :: rest =>
    (if isXY i then decide (Z_TRAVEL ≤ z) else true) && zOK (trackZ z i) rest

/-! ### Floyd-Steinberg error diffusion

Planes are lists of rows, as in the source (`arr` is a list of lists of
floats, `out` a list of lists of ints); reads and writes carry the same
bounds guards as the source. -/

/-- Read `m[y][x]` (out-of-range reads default to 0; the pass only reads
in bounds). -/
def get2 (m : List (List ℚ)) (y x : ℕ) : ℚ :=
  ((m[y]?.getD [])[x]?.getD 0)

/-- Write `m[y][x] = v` (out-of-range writes are dropped; the pass only
writes in bounds). -/
def set2 (m : List (List ℚ)) (y x : ℕ) (v : ℚ) : List (List ℚ) :=
  m.set y ((m[y]?.getD []).set x v)

/-- The `arr[..][..] += ..` statements. -/
def add2 (m : List (List ℚ)) (y x : ℕ) (d : ℚ) : List (List ℚ) :=
  set2 m y x (get2 m y x + d)

def getN2 (m : List (List ℕ)) (y x : ℕ) : ℕ :=
  ((m[y]?.getD [])[x]?.getD 0)

def setN2 (m : List (List ℕ)) (y x : ℕ) (v : ℕ) : List (List ℕ) :=
  m.set y ((m[y]?.getD []).set x v)

/-- The copy `arr = [[img_chan[y][x] for x in range(w)] for y in range(h)]`
(the decoded channel plane is the spec's black-box grid of samples,
modelled as a total function). -/
def copyPlane (chan : ℕ → ℕ → ℚ) (w h : ℕ) : List (List ℚ) :=
  (List.range h).map (fun y => (List.range w).map (fun x => chan y x))

/-- The initialisation `out = [[0]*w for _ in range(h)]`. -/
def zerosPlane (w h : ℕ) : List (List ℕ) :=
  (List.range h).map (fun _ => List.replicate w 0)

/-- The body of the double loop of `floyd_steinberg_dither_channel` for one
cell `(y,x)`: threshold at 1/2, record the binary output, and distribute the
error with weights 7/16, 3/16, 5/16, 1/16 to in-bounds neighbours. -/
def fs_cell (w h : ℕ) (st : List (List ℚ) × List (List ℕ)) (y x : ℕ) :
    List (List ℚ) × List (List ℕ) :=
  let arr := st.1
  let old := get2 arr y x
  let nv : ℕ := if 1/2 ≤ old then 1 else 0
  let out1 := setN2 st.2 y x nv
  let err : ℚ := old - nv
  let a1 := if x + 1 < w then add2 arr y (x + 1) (err * 7 / 16) else arr
  let a2 := if y + 1 < h ∧ 0 < x then add2 a1 (y + 1) (x - 1) (err * 3 / 16) else a1
  let a3 := if y + 1 < h then add2 a2 (y + 1) x (err * 5 / 16) else a2
  let a4 := if y + 1 < h ∧ x + 1 < w then add2 a3 (y + 1) (x + 1) (err * 1 / 16) else a3
  (a4, out1)

/-- The full double loop: rows `0..h-1`, inside each row columns `0..w-1`. -/
def fs_run (chan : ℕ → ℕ → ℚ) (w h : ℕ) : List (List ℚ) × List (List ℕ) :=
  (List.range h).foldl
    (fun st y => (List.range w).foldl (fun st1 x => fs_cell w h st1 y x) st)
    (copyPlane chan w h, zerosPlane w h)

/-- `floyd_steinberg_dither_channel` from the source: the binary output
plane (the working array starts as a copy of the input channel, the output
as all zeros). -/
def floyd_steinberg_dither_channel (chan : ℕ → ℕ → ℚ) (w h : ℕ) :
    List (List ℕ) :=
  (fs_run chan w h).2

/-- Row-major cell list `(y,x)` for a `w×h` plane. -/
def rowMajor (w h : ℕ) : List (ℕ × ℕ) :=
  (List.range h).flatMap (fun y => (List.range w).map (fun x => (y, x)))

/-- Modelled from the spec (claim C4's reference definition): process the
row-major cell list by structural recursion, thresholding the current
error-adjusted value at 0.5 (output 1 iff the value is at least 0.5),
and distributing the quantization error to the right (7/16), next-row-left
(3/16), next-row-same (5/16) and next-row-right (1/16) neighbours, skipping
neighbours outside the grid. -/
def fs_spec_go (w h : ℕ) : List (ℕ × ℕ) → List (List ℚ) × List (List ℕ) →
    List (List ℚ) × List (List ℕ)
  | [], st => st
  | c :: rest, st =>
    let y := c.1
    let x := c.2
    let v := get2 st.1 y x
    let o : ℕ := if 1/2 ≤ v then 1 else 0
    let e : ℚ := v - o
    let b1 := if x + 1 < w then add2 st.1 y (x + 1) (e * 7 / 16) else st.1
    let b2 := if y + 1 < h ∧ 0 < x then add2 b1 (y + 1) (x - 1) (e * 3 / 16) else b1
    let b3 := if y + 1 < h then add2 b2 (y + 1) x (e * 5 / 16) else b2
    let b4 := if y + 1 < h ∧ x + 1 < w then add2 b3 (y + 1) (x + 1) (e * 1 / 16) else b3
    fs_spec_go w h rest (b4, setN2 st.2 y x o)

/-- Modelled from the spec: the reference error-diffusion output plane. -/
def fs_spec (chan : ℕ → ℕ → ℚ) (w h : ℕ) : List (List ℕ) :=
  (fs_spec_go w h (rowMajor w h) (copyPlane chan w h, zerosPlane w h)).2

/-! ### The main pipeline (rgb6 path), for the configuration-error claim -/

/-- Python's `round` (banker's rounding, half to even) on an exact value. -/
def pyRound (q : ℚ) : ℤ :=
  let f : ℤ := ⌊q⌋
  let r : ℚ := q - f
  if r < 1/2 then f
  else if 1/2 < r then f + 1
  else if Even f then f else f + 1

/-- The grid-dimension computation of `main`: `usable/pitch` raises
`ZeroDivisionError` when the pitch is zero (modelled as `none`); otherwise
each dimension is `max(1, int(round(usable/pitch)))`. -/
def mainGrid (width_mm height_mm margin_mm pitch : ℚ) : Option (ℕ × ℕ) :=
  if pitch = 0 then none
  else
    let uw : ℚ := max 0 (width_mm - 2 * margin_mm)
    let uh : ℚ := max 0 (height_mm - 2 * margin_mm)
    some ((max 1 (pyRound (uw / pitch))).toNat, (max 1 (pyRound (uh / pitch))).toNat)

/-- The rgb6 classification loop of `main`: row-major over the resized
image, skip cells whose three channels are all at or above
`WHITE_THRESHOLD`, append the rest to the nearest palette color's list. -/
def color_points_rgb6 (img : ℕ → ℕ → ℕ × ℕ × ℕ) (gc gr : ℕ) :
    String → List (ℕ × ℕ) :=
  ((List.range gr).flatMap (fun y => (List.range gc).map (fun x => (x, y)))).foldl
    (fun cp p =>
      let rgb := img p.1 p.2
      if WHITE_THRESHOLD ≤ rgb.1 ∧ WHITE_THRESHOLD ≤ rgb.2.1 ∧
          WHITE_THRESHOLD ≤ rgb.2.2 then cp
      else
        match nearest_palette_color rgb.1 rgb.2.1 rgb.2.2 with
        | none => cp
        | some c => fun k => if k = c then cp k ++ [p] else cp k)
    (fun _ => [])

/-- The rgb6 path of `main` after image decoding (the image is the
spec's black-box grid of RGB samples): grid derivation, classification,
then `gen_gcode`; `none` models the run aborting before any instruction is
generated. -/
def runMain_rgb6 (img : ℕ → ℕ → ℕ × ℕ × ℕ)
    (width_mm height_mm margin_mm pitch ox oy : ℚ)
    (dist : ℚ → ℚ → ℚ → ℚ → ℚ) : Option (List Instr) :=
  (mainGrid width_mm height_mm margin_mm pitch).map (fun g =>
    gen_gcode (color_points_rgb6 img g.1 g.2) COLOR_ORDER_RGB6 g.1 g.2
      (station_of COLOR_ORDER_RGB6)
      { origin_x := ox, origin_y := oy, margin_mm := margin_mm,
        dot_pitch_mm := pitch }
      dist RE_DIP_EVERY_N_DOTS RE_DIP_AFTER_TRAVEL_MM)

/-! ### Heap model of the dither pass (frame claim)

To talk about mutation of the caller's plane we run the same pass over an
explicit flat heap: the input plane lives at addresses `y*w + x`
(`addrC`), and the working array `arr` — which the source allocates as a
fresh copy `[[img_chan[y][x] ...]]` — lives at the disjoint addresses
`w*h + y*w + x` (`addrA`).  Every write of the pass targets the `arr`
region. -/

def addrC (w y x : ℕ) : ℕ := y * w + x

def addrA (w h y x : ℕ) : ℕ := w * h + y * w + x

/-- Heap write. -/
def hWrite (hp : ℕ → ℚ) (a : ℕ) (v : ℚ) : ℕ → ℚ :=
  fun a0 => if a0 = a then v else hp a0

/-- Heap `+=`. -/
def hAdd (hp : ℕ → ℚ) (a : ℕ) (d : ℚ) : ℕ → ℚ :=
  hWrite hp a (hp a + d)

/-- The copy `arr = [[img_chan[y][x] for x ...] for y ...]`: write each
input value into the fresh `arr` region. -/
def fs_heap_copy (w h : ℕ) (hp : ℕ → ℚ) : ℕ → ℚ :=
  (rowMajor w h).foldl (fun m c => hWrite m (addrA w h c.1 c.2) (m (addrC w c.1 c.2))) hp

/-- One cell of the dither loop over the heap (reads and writes only the
`arr` region). -/
def fs_heap_cell (w h : ℕ) (hp : ℕ → ℚ) (y x : ℕ) : ℕ → ℚ :=
  let old := hp (addrA w h y x)
  let nv : ℕ := if 1/2 ≤ old then 1 else 0
  let err : ℚ := old - nv
  let m1 := if x + 1 < w then hAdd hp (addrA w h y (x + 1)) (err * 7 / 16) else hp
  let m2 := if y + 1 < h ∧ 0 < x then hAdd m1 (addrA w h (y + 1) (x - 1)) (err * 3 / 16) else m1
  let m3 := if y + 1 < h then hAdd m2 (addrA w h (y + 1) x) (err * 5 / 16) else m2
  if y + 1 < h ∧ x + 1 < w then hAdd m3 (addrA w h (y + 1) (x + 1)) (err * 1 / 16) else m3

/-- The whole pass over the heap: copy, then the row-major dither loop.
The binary outputs are irrelevant to the frame claim and not tracked. -/
def fs_heap_run (w h : ℕ) (hp : ℕ → ℚ) : ℕ → ℚ :=
  (rowMajor w h).foldl (fun m c => fs_heap_cell w h m c.1 c.2) (fs_heap_copy w h hp)

/-- Position of the k-th visited cell in the serpentine traversal:
row `k / w`; column `k % w` on even rows, `w - 1 - k % w` on odd rows. -/
def serpF (w : ℕ) (k : ℕ) : ℕ × ℕ :=
  (if k / w % 2 = 0 then k % w else w - 1 - k % w, k / w)

/-- Every entry of every row is at most 1. -/
def outBinary (o : List (List ℕ)) : Prop := ∀ r ∈ o, ∀ v ∈ r, v ≤ 1

/-- A concrete distance function that is identically zero (used as witness
instantiation of the abstract `math.hypot` parameter). -/
def distZero : ℚ → ℚ → ℚ → ℚ → ℚ := fun _ _ _ _ => 0

/-- A concrete color-points table assigning one dab to black and none to
any other color (witness input). -/
def cpBlackOnly : String → List (ℕ × ℕ) :=
  fun s => if s = "black" then [(0, 0)] else []

/-- Concrete generator arguments for witnesses. -/
def argsW : GArgs :=
  { origin_x := 0, origin_y := 0, margin_mm := 0, dot_pitch_mm := 3 }

/-- The spec's synthetic constant plane of value 0.3. -/
def chanC : ℕ → ℕ → ℚ := fun _ _ => 3 / 10

/-- A constant pure-black image (concrete pipeline input). -/
def imgBlack : ℕ → ℕ → ℕ × ℕ × ℕ := fun _ _ => (0, 0, 0)

/-! ## Theorems -/

theorem serpentine_eq_map (w h : ℕ) :
    serpentine_indices w h = (List.range (w * h)).map (serpF w) := by
  induction h with
  | zero => simp [serpentine_indices]
  | succ h ih =>
    rw [serpentine_indices, List.range_succ, List.flatMap_append,
      show ((List.range h).flatMap (fun j =>
        let row := (List.range w).map (fun i => (i, j))
        if j % 2 = 1 then row.reverse else row)) = serpentine_indices w h from rfl,
      ih, Nat.mul_succ, List.range_add, List.map_append]
    congr 1
    simp only [List.flatMap_cons, List.flatMap_nil, List.append_nil, List.map_map]
    have hrev : (List.range w).reverse = (List.range w).map (fun x => w - 1 - x) := by
      conv_lhs => rw [List.range_eq_range']
      rw [List.reverse_range']
      simp
    rcases Nat.even_or_odd h with he | ho
    · have h2 : h % 2 = 0 := Nat.even_iff.mp he
      rw [if_neg (by omega)]
      refine List.map_congr_left (fun i hi => ?_)
      have hiw : i < w := List.mem_range.mp hi
      have hw : 0 < w := by omega
      simp only [Function.comp, serpF]
      have hdiv : (w * h + i) / w = h := by
        rw [Nat.mul_add_div hw, Nat.div_eq_of_lt hiw, Nat.add_zero]
      have hmod : (w * h + i) % w = i := by
        rw [Nat.mul_add_mod, Nat.mod_eq_of_lt hiw]
      rw [hdiv, hmod, h2, if_pos rfl]
    · have h2 : h % 2 = 1 := Nat.odd_iff.mp ho
      rw [if_pos h2, ← List.map_reverse, hrev, List.map_map]
      refine List.map_congr_left (fun i hi => ?_)
      have hiw : i < w := List.mem_range.mp hi
      have hw : 0 < w := by omega
      simp only [Function.comp, serpF]
      have hdiv : (w * h + i) / w = h := by
        rw [Nat.mul_add_div hw, Nat.div_eq_of_lt hiw, Nat.add_zero]
      have hmod : (w * h + i) % w = i := by
        rw [Nat.mul_add_mod, Nat.mod_eq_of_lt hiw]
      rw [hdiv, hmod, h2]
      simp

/-- C9: the serpentine traversal visits each of the w×h cells exactly once,
row index increasing (row of the k-th cell is `k / w`), with even rows
ascending in column and odd rows descending. -/
theorem serpentine_traversal (w h : ℕ) :
    serpentine_indices w h = (List.range (w * h)).map (serpF w) ∧
    (serpentine_indices w h).Nodup ∧
    ∀ p : ℕ × ℕ, (p ∈ serpentine_indices w h ↔ p.1 < w ∧ p.2 < h) := by
  refine ⟨serpentine_eq_map w h, ?_, ?_⟩
  · rw [serpentine_eq_map]
    refine List.Nodup.map_on ?_ (List.nodup_range _)
    intro k1 h1 k2 h2 heq
    have hk1 : k1 < w * h := List.mem_range.mp h1
    have hw : 0 < w := by
      rcases Nat.eq_zero_or_pos w with h0 | h0
      · subst h0; simp at hk1
      · exact h0
    have m1 : k1 % w < w := Nat.mod_lt _ hw
    have m2 : k2 % w < w := Nat.mod_lt _ hw
    simp only [serpF, Prod.mk.injEq] at heq
    rcases heq with ⟨hcol, hrow⟩
    rw [hrow] at hcol
    have hm : k1 % w = k2 % w := by
      by_cases hp : k2 / w % 2 = 0
      · rw [if_pos hp, if_pos hp] at hcol
        exact hcol
      · rw [if_neg hp, if_neg hp] at hcol
        omega
    have e1 : w * (k1 / w) + k1 % w = k1 := Nat.div_add_mod k1 w
    have e2 : w * (k2 / w) + k2 % w = k2 := Nat.div_add_mod k2 w
    rw [hrow, hm] at e1
    omega
  · intro p
    rw [serpentine_eq_map]
    constructor
    · intro hp
      rcases List.mem_map.mp hp with ⟨k, hk, hf⟩
      have hkr : k < w * h := List.mem_range.mp hk
      have hw : 0 < w := by
        rcases Nat.eq_zero_or_pos w with h0 | h0
        · subst h0; simp at hkr
        · exact h0
      have hm : k % w < w := Nat.mod_lt _ hw
      have hd : k / w < h := Nat.div_lt_of_lt_mul (by omega)
      rw [← hf]
      simp only [serpF]
      refine ⟨?_, hd⟩
      by_cases hp2 : k / w % 2 = 0
      · rw [if_pos hp2]; exact hm
      · rw [if_neg hp2]; omega
    · intro hp
      rcases hp with ⟨hx, hy⟩
      have hw : 0 < w := by omega
      have hbound : ∀ c : ℕ, c < w → w * p.2 + c < w * h := by
        intro c hc
        calc w * p.2 + c < w * p.2 + w := by omega
          _ = w * (p.2 + 1) := by ring
          _ ≤ w * h := Nat.mul_le_mul_left w (by omega)
      refine List.mem_map.mpr ?_
      by_cases hp2 : p.2 % 2 = 0
      · refine ⟨w * p.2 + p.1, List.mem_range.mpr (hbound p.1 hx), ?_⟩
        simp only [serpF]
        have hdiv : (w * p.2 + p.1) / w = p.2 := by
          rw [Nat.mul_add_div hw, Nat.div_eq_of_lt hx, Nat.add_zero]
        have hmod : (w * p.2 + p.1) % w = p.1 := by
          rw [Nat.mul_add_mod, Nat.mod_eq_of_lt hx]
        rw [hdiv, hmod, if_pos hp2]
      · refine ⟨w * p.2 + (w - 1 - p.1), List.mem_range.mpr (hbound _ (by omega)), ?_⟩
        simp only [serpF]
        have hx2 : w - 1 - p.1 < w := by omega
        have hdiv : (w * p.2 + (w - 1 - p.1)) / w = p.2 := by
          rw [Nat.mul_add_div hw, Nat.div_eq_of_lt hx2, Nat.add_zero]
        have hmod : (w * p.2 + (w - 1 - p.1)) % w = w - 1 - p.1 := by
          rw [Nat.mul_add_mod, Nat.mod_eq_of_lt hx2]
        rw [hdiv, hmod, if_neg hp2]
        exact Prod.ext (by omega) rfl

/-- C6: for in-range RGB, the subtractive conversion returns four ink
fractions in [0,1]; K saturates to 1 exactly for pure black, in which case
the other fractions are 0; otherwise the quotient formulas hold with a
nonzero divisor `1 - K`. -/
theorem rgb_to_cmyk_ranges (r g b : ℕ) (hr : r ≤ 255) (hg : g ≤ 255) (hb : b ≤ 255) :
    (0 ≤ (rgb_to_cmyk r g b).1 ∧ (rgb_to_cmyk r g b).1 ≤ 1) ∧
    (0 ≤ (rgb_to_cmyk r g b).2.1 ∧ (rgb_to_cmyk r g b).2.1 ≤ 1) ∧
    (0 ≤ (rgb_to_cmyk r g b).2.2.1 ∧ (rgb_to_cmyk r g b).2.2.1 ≤ 1) ∧
    (0 ≤ (rgb_to_cmyk r g b).2.2.2 ∧ (rgb_to_cmyk r g b).2.2.2 ≤ 1) ∧
    ((r = 0 ∧ g = 0 ∧ b = 0) ↔ rgb_to_cmyk r g b = (0, 0, 0, 1)) ∧
    (¬(r = 0 ∧ g = 0 ∧ b = 0) →
      (1 : ℚ) - (rgb_to_cmyk r g b).2.2.2 ≠ 0 ∧
      (rgb_to_cmyk r g b).2.2.2 = 1 - max (max ((r : ℚ)/255) ((g : ℚ)/255)) ((b : ℚ)/255) ∧
      (rgb_to_cmyk r g b).1 =
        (1 - (r : ℚ)/255 - (rgb_to_cmyk r g b).2.2.2) / (1 - (rgb_to_cmyk r g b).2.2.2) ∧
      (rgb_to_cmyk r g b).2.1 =
        (1 - (g : ℚ)/255 - (rgb_to_cmyk r g b).2.2.2) / (1 - (rgb_to_cmyk r g b).2.2.2) ∧
      (rgb_to_cmyk r g b).2.2.1 =
        (1 - (b : ℚ)/255 - (rgb_to_cmyk r g b).2.2.2) / (1 - (rgb_to_cmyk r g b).2.2.2)) := by
  have hRnn : (0:ℚ) ≤ (r : ℚ)/255 := by positivity
  have hGnn : (0:ℚ) ≤ (g : ℚ)/255 := by positivity
  have hBnn : (0:ℚ) ≤ (b : ℚ)/255 := by positivity
  have hR1 : (r : ℚ)/255 ≤ 1 := by
    rw [div_le_one (by norm_num)]
    exact_mod_cast hr
  have hG1 : (g : ℚ)/255 ≤ 1 := by
    rw [div_le_one (by norm_num)]
    exact_mod_cast hg
  have hB1 : (b : ℚ)/255 ≤ 1 := by
    rw [div_le_one (by norm_num)]
    exact_mod_cast hb
  set M : ℚ := max (max ((r : ℚ)/255) ((g : ℚ)/255)) ((b : ℚ)/255) with hMdef
  have hMnn : 0 ≤ M := le_trans hRnn (le_trans (le_max_left _ _) (le_max_left _ _))
  have hM1 : M ≤ 1 := max_le (max_le hR1 hG1) hB1
  have hRM : (r : ℚ)/255 ≤ M := le_trans (le_max_left _ _) (le_max_left _ _)
  have hGM : (g : ℚ)/255 ≤ M := le_trans (le_max_right _ _) (le_max_left _ _)
  have hBM : (b : ℚ)/255 ≤ M := le_max_right _ _
  by_cases hK : (1:ℚ) ≤ 1 - M
  · have hM0 : M = 0 := le_antisymm (by linarith) hMnn
    have hr0 : r = 0 := by
      have : (r : ℚ)/255 = 0 := le_antisymm (hM0 ▸ hRM) hRnn
      have : (r : ℚ) = 0 := by
        rcases div_eq_zero_iff.mp this with h | h
        · exact h
        · norm_num at h
      exact_mod_cast this
    have hg0 : g = 0 := by
      have : (g : ℚ)/255 = 0 := le_antisymm (hM0 ▸ hGM) hGnn
      have : (g : ℚ) = 0 := by
        rcases div_eq_zero_iff.mp this with h | h
        · exact h
        · norm_num at h
      exact_mod_cast this
    have hb0 : b = 0 := by
      have : (b : ℚ)/255 = 0 := le_antisymm (hM0 ▸ hBM) hBnn
      have : (b : ℚ) = 0 := by
        rcases div_eq_zero_iff.mp this with h | h
        · exact h
        · norm_num at h
      exact_mod_cast this
    have ho : rgb_to_cmyk r g b = (0, 0, 0, 1) := by
      simp only [rgb_to_cmyk, ← hMdef]
      rw [if_pos hK]
    rw [ho]
    refine ⟨by norm_num, by norm_num, by norm_num, by norm_num, ?_, ?_⟩
    · exact ⟨fun _ => rfl, fun _ => ⟨hr0, hg0, hb0⟩⟩
    · intro hcon
      exact absurd ⟨hr0, hg0, hb0⟩ hcon
  · have hMpos : 0 < M := by
      rcases lt_or_eq_of_le hMnn with h | h
      · exact h
      · exact absurd (by rw [← h]; norm_num) hK
    have ho : rgb_to_cmyk r g b =
        ((1 - (r : ℚ)/255 - (1 - M)) / (1 - (1 - M)),
         (1 - (g : ℚ)/255 - (1 - M)) / (1 - (1 - M)),
         (1 - (b : ℚ)/255 - (1 - M)) / (1 - (1 - M)), 1 - M) := by
      simp only [rgb_to_cmyk, ← hMdef]
      rw [if_neg hK]
    have hden : (1:ℚ) - (1 - M) = M := by ring
    have hbounds : ∀ v : ℚ, 0 ≤ v → v ≤ M →
        0 ≤ (1 - v - (1 - M)) / (1 - (1 - M)) ∧ (1 - v - (1 - M)) / (1 - (1 - M)) ≤ 1 := by
      intro v hv0 hvM
      have hnum : (1:ℚ) - v - (1 - M) = M - v := by ring
      rw [hnum, hden]
      constructor
      · exact div_nonneg (by linarith) (le_of_lt hMpos)
      · rw [div_le_one hMpos]
        linarith
    rw [ho]
    refine ⟨hbounds _ hRnn hRM, hbounds _ hGnn hGM, hbounds _ hBnn hBM,
      ⟨by linarith, by linarith⟩, ?_, ?_⟩
    · constructor
      · intro hblk
        exfalso
        have : (r : ℚ)/255 = 0 := by rw [hblk.1]; norm_num
        have hg2 : (g : ℚ)/255 = 0 := by rw [hblk.2.1]; norm_num
        have hb2 : (b : ℚ)/255 = 0 := by rw [hblk.2.2]; norm_num
        have : M = 0 := by
          rw [hMdef, this, hg2, hb2]
          norm_num
        linarith
      · intro htup
        exfalso
        have h4 : (1:ℚ) - M = 1 := congrArg (fun t : ℚ × ℚ × ℚ × ℚ => t.2.2.2) htup
        linarith
    · intro _
      rw [hden]
      exact ⟨by linarith, rfl, rfl, rfl, rfl⟩

theorem rgb_to_cmyk_ranges_witness :
    (100 ≤ 255 ∧ 50 ≤ 255 ∧ 0 ≤ 255) ∧
    (0 ≤ (rgb_to_cmyk 100 50 0).1 ∧ (rgb_to_cmyk 100 50 0).1 ≤ 1) ∧
    (0 ≤ (rgb_to_cmyk 100 50 0).2.1 ∧ (rgb_to_cmyk 100 50 0).2.1 ≤ 1) ∧
    (0 ≤ (rgb_to_cmyk 100 50 0).2.2.1 ∧ (rgb_to_cmyk 100 50 0).2.2.1 ≤ 1) ∧
    (0 ≤ (rgb_to_cmyk 100 50 0).2.2.2 ∧ (rgb_to_cmyk 100 50 0).2.2.2 ≤ 1) := by
  have h := rgb_to_cmyk_ranges 100 50 0 (by norm_num) (by norm_num) (by norm_num)
  exact ⟨⟨by norm_num, by norm_num, by norm_num⟩, h.1, h.2.1, h.2.2.1, h.2.2.2.1⟩

theorem npc_fold (r g b : ℕ) :
    ∀ (l : List (String × ℕ × ℕ × ℕ)) (o : Option String) (D : ℤ),
    ((∀ e ∈ l, D ≤ d2rgb r g b e.2) ∧ List.foldl (npcStep r g b) (o, D) l = (o, D)) ∨
    (∃ i, ∃ hi : i < l.length,
      List.foldl (npcStep r g b) (o, D) l =
        (some (l.get ⟨i, hi⟩).1, d2rgb r g b (l.get ⟨i, hi⟩).2) ∧
      d2rgb r g b (l.get ⟨i, hi⟩).2 < D ∧
      (∀ e ∈ l, d2rgb r g b (l.get ⟨i, hi⟩).2 ≤ d2rgb r g b e.2) ∧
      (∀ e ∈ l.take i, d2rgb r g b (l.get ⟨i, hi⟩).2 < d2rgb r g b e.2)) := by
  intro l
  induction l with
  | nil =>
    intro o D
    left
    exact ⟨by simp, rfl⟩
  | cons a rest ih =>
    intro o D
    rw [List.foldl_cons]
    by_cases hlt : d2rgb r g b a.2 < D
    · have hstep : npcStep r g b (o, D) a = (some a.1, d2rgb r g b a.2) := by
        simp only [npcStep]
        rw [if_pos hlt]
      rw [hstep]
      rcases ih (some a.1) (d2rgb r g b a.2) with ⟨hall, heq⟩ | ⟨i, hi, heq, hlt2, hmin, hearly⟩
      · right
        refine ⟨0, by simp, by simpa using heq, hlt, ?_, by simp⟩
        intro e2 he2
        rcases List.mem_cons.mp he2 with h | h
        · subst h
          simp
        · simpa using hall e2 h
      · right
        have hi2 : i + 1 < (a :: rest).length := by simpa using Nat.succ_lt_succ hi
        have hget : (a :: rest).get ⟨i + 1, hi2⟩ = rest.get ⟨i, hi⟩ := rfl
        refine ⟨i + 1, hi2, ?_, ?_, ?_, ?_⟩
        · rw [hget]
          exact heq
        · rw [hget]
          exact lt_trans hlt2 hlt
        · intro e2 he2
          rw [hget]
          rcases List.mem_cons.mp he2 with h | h
          · subst h
            exact le_of_lt hlt2
          · exact hmin e2 h
        · intro e2 he2
          rw [hget]
          rcases List.mem_cons.mp (by simpa using he2) with h | h
          · subst h
            exact hlt2
          · exact hearly e2 h
    · have hstep : npcStep r g b (o, D) a = (o, D) := by
        simp only [npcStep]
        rw [if_neg hlt]
      rw [hstep]
      have hge : D ≤ d2rgb r g b a.2 := le_of_not_lt hlt
      rcases ih o D with ⟨hall, heq⟩ | ⟨i, hi, heq, hlt2, hmin, hearly⟩
      · left
        refine ⟨?_, heq⟩
        intro e2 he2
        rcases List.mem_cons.mp he2 with h | h
        · subst h
          exact hge
        · exact hall e2 h
      · right
        have hi2 : i + 1 < (a :: rest).length := by simpa using Nat.succ_lt_succ hi
        have hget : (a :: rest).get ⟨i + 1, hi2⟩ = rest.get ⟨i, hi⟩ := rfl
        refine ⟨i + 1, hi2, ?_, ?_, ?_, ?_⟩
        · rw [hget]
          exact heq
        · rw [hget]
          exact hlt2
        · intro e2 he2
          rw [hget]
          rcases List.mem_cons.mp he2 with h | h
          · subst h
            exact le_trans (le_of_lt hlt2) hge
          · exact hmin e2 h
        · intro e2 he2
          rw [hget]
          rcases List.mem_cons.mp (by simpa using he2) with h | h
          · subst h
            exact lt_of_lt_of_le hlt2 hge
          · exact hearly e2 h

/-- C2 (amended): for every in-range, non-background RGB triple, the
classifier returns exactly the palette color of minimal squared distance,
ties broken by the reference table's iteration order
(red, green, blue, yellow, black, white) — not by palette order. -/
theorem nearest_palette_color_amended (r g b : ℕ)
    (hr : r ≤ 255) (hg : g ≤ 255) (hb : b ≤ 255)
    (hbg : ¬(WHITE_THRESHOLD ≤ r ∧ WHITE_THRESHOLD ≤ g ∧ WHITE_THRESHOLD ≤ b)) :
    ∃ i, ∃ hi : i < PALETTE_RGB.length,
      nearest_palette_color r g b = some (PALETTE_RGB.get ⟨i, hi⟩).1 ∧
      (∀ e ∈ PALETTE_RGB, d2rgb r g b (PALETTE_RGB.get ⟨i, hi⟩).2 ≤ d2rgb r g b e.2) ∧
      (∀ e ∈ PALETTE_RGB.take i, d2rgb r g b (PALETTE_RGB.get ⟨i, hi⟩).2 < d2rgb r g b e.2) := by
  rcases npc_fold r g b PALETTE_RGB none (10 ^ 18) with ⟨hall, _⟩ | ⟨i, hi, heq, _, hmin, hearly⟩
  · exfalso
    have hblk : ("black", (0, 0, 0)) ∈ PALETTE_RGB := by decide
    have h1 := hall _ hblk
    have hrz : (r : ℤ) ≤ 255 := by exact_mod_cast hr
    have hgz : (g : ℤ) ≤ 255 := by exact_mod_cast hg
    have hbz : (b : ℤ) ≤ 255 := by exact_mod_cast hb
    have hrz0 : (0 : ℤ) ≤ (r : ℤ) := Int.natCast_nonneg r
    have hgz0 : (0 : ℤ) ≤ (g : ℤ) := Int.natCast_nonneg g
    have hbz0 : (0 : ℤ) ≤ (b : ℤ) := Int.natCast_nonneg b
    have h2a : ((r : ℤ) - 0) ^ 2 ≤ 255 ^ 2 := by
      rw [sub_zero]
      exact pow_le_pow_left hrz0 hrz 2
    have h2b : ((g : ℤ) - 0) ^ 2 ≤ 255 ^ 2 := by
      rw [sub_zero]
      exact pow_le_pow_left hgz0 hgz 2
    have h2c : ((b : ℤ) - 0) ^ 2 ≤ 255 ^ 2 := by
      rw [sub_zero]
      exact pow_le_pow_left hbz0 hbz 2
    have h2 : d2rgb r g b (0, 0, 0) ≤ 3 * 255 ^ 2 := by
      simp only [d2rgb]
      push_cast
      linarith
    have h3 : (3 : ℤ) * 255 ^ 2 < 10 ^ 18 := by norm_num
    simp only at h1
    omega
  · exact ⟨i, hi, by simp only [nearest_palette_color, heq], hmin, hearly⟩

/-- C2 (counterexample to the claim as stated): at RGB (110, 10, 30) black
and red tie at squared distance 13100, minimal over the whole palette; the
claim says palette order picks black, but the code returns red — the
reference table's insertion order tries red first and a tie never replaces
the current best. -/
theorem nearest_tie_break_counterexample :
    nearest_palette_color 110 10 30 = some ("red") ∧
    spec_nearest 110 10 30 = some ("black") ∧
    d2rgb 110 10 30 (0, 0, 0) = 13100 ∧
    d2rgb 110 10 30 (220, 20, 60) = 13100 ∧
    (∀ e ∈ PALETTE_RGB, 13100 ≤ d2rgb 110 10 30 e.2) ∧
    ¬(WHITE_THRESHOLD ≤ 110 ∧ WHITE_THRESHOLD ≤ 10 ∧ WHITE_THRESHOLD ≤ 30) ∧
    ("red" : String) ≠ "black" := by decide

theorem nearest_palette_color_amended_witness :
    (110 ≤ 255 ∧ 10 ≤ 255 ∧ 30 ≤ 255 ∧
      ¬(WHITE_THRESHOLD ≤ 110 ∧ WHITE_THRESHOLD ≤ 10 ∧ WHITE_THRESHOLD ≤ 30)) ∧
    (∃ i, ∃ hi : i < PALETTE_RGB.length,
      nearest_palette_color 110 10 30 = some (PALETTE_RGB.get ⟨i, hi⟩).1 ∧
      (∀ e ∈ PALETTE_RGB, d2rgb 110 10 30 (PALETTE_RGB.get ⟨i, hi⟩).2 ≤ d2rgb 110 10 30 e.2) ∧
      (∀ e ∈ PALETTE_RGB.take i,
        d2rgb 110 10 30 (PALETTE_RGB.get ⟨i, hi⟩).2 < d2rgb 110 10 30 e.2)) :=
  ⟨⟨by decide, by decide, by decide, by decide⟩,
    nearest_palette_color_amended 110 10 30 (by decide) (by decide) (by decide) (by decide)⟩

theorem mod_shift_equiv (N i : ℕ) (hN : 0 < N) :
    (N ≤ 1 + i ∧ (1 + i - N) % N = 0) ↔ (i + 1) % N = 0 := by
  constructor
  · rintro ⟨hle, hmod⟩
    have harg : i + 1 = (1 + i - N) + N := by omega
    rw [harg, Nat.add_mod_right]
    exact hmod
  · intro hmod
    have hdvd : N ∣ i + 1 := Nat.dvd_of_mod_eq_zero hmod
    have hle : N ≤ i + 1 := Nat.le_of_dvd (by omega) hdvd
    refine ⟨by omega, ?_⟩
    have hdvd2 : N ∣ (1 + i - N) := by
      rcases hdvd with ⟨k, hk⟩
      cases k with
      | zero => omega
      | succ k2 =>
        refine ⟨k2, ?_⟩
        have hk2 : i + 1 = N * k2 + N := by
          rw [hk, Nat.mul_succ]
        omega
    exact Nat.dvd_iff_mod_eq_zero.mp hdvd2

theorem dab_actions_replicate_aux (dist : ℚ → ℚ → ℚ → ℚ → ℚ) (N : ℕ) (T : ℚ)
    (p : ℚ × ℚ) (hN : 0 < N) (hd : dist p.1 p.2 p.1 p.2 = 0) :
    ∀ (m c : ℕ), 1 ≤ c → c ≤ N →
    dab_actions dist N T c 0 (some p) (List.replicate m p) =
      (List.range m).flatMap (fun i =>
        (if N ≤ c + i ∧ (c + i - N) % N = 0 then [DabAct.redip] else []) ++
          [DabAct.dab p.1 p.2]) := by
  intro m
  induction m with
  | zero =>
    intro c _ _
    rfl
  | succ m ih =>
    intro c hc1 hcN
    rw [List.replicate_succ, List.range_succ_eq_map, List.flatMap_cons, List.flatMap_map]
    have hts : ((0 : ℚ) + dist p.1 p.2 p.1 p.2) = 0 := by
      rw [hd, add_zero]
    by_cases hceq : c = N
    · subst hceq
      rw [show dab_actions dist c T c 0 (some p) (p :: List.replicate m p) =
          DabAct.redip :: DabAct.dab p.1 p.2 ::
            dab_actions dist c T 1 0 (some p) (List.replicate m p) from by
        simp only [dab_actions]
        rw [if_pos (Or.inl (le_refl c))]]
      rw [ih 1 (le_refl 1) (by omega)]
      rw [if_pos ⟨by omega, by simp⟩]
      simp only [List.cons_append, List.nil_append, List.singleton_append]
      congr 1
      congr 1
      refine List.flatMap_congr (fun i hi => ?_)
      have hiff : (c ≤ 1 + i ∧ (1 + i - c) % c = 0) ↔
          (c ≤ c + Nat.succ i ∧ (c + Nat.succ i - c) % c = 0) := by
        rw [mod_shift_equiv c i hN]
        constructor
        · intro hmod
          refine ⟨by omega, ?_⟩
          rw [show c + Nat.succ i - c = i + 1 from by omega]
          exact hmod
        · rintro ⟨_, hmod⟩
          rw [show c + Nat.succ i - c = i + 1 from by omega] at hmod
          exact hmod
      rw [if_congr hiff rfl rfl]
    · have hclt : c < N := by omega
      rw [show dab_actions dist N T c 0 (some p) (p :: List.replicate m p) =
          DabAct.dab p.1 p.2 ::
            dab_actions dist N T (c + 1) ((0 : ℚ) + dist p.1 p.2 p.1 p.2)
              (some p) (List.replicate m p) from by
        simp only [dab_actions]
        rw [if_neg (by
          rintro (h | ⟨hT, hTle⟩)
          · omega
          · rw [hts] at hTle
            linarith)]]
      rw [hts, ih (c + 1) (by omega) (by omega)]
      rw [if_neg (by rintro ⟨h, _⟩; omega)]
      simp only [List.nil_append, List.singleton_append]
      congr 1
      refine List.flatMap_congr (fun i hi => ?_)
      rw [show c + 1 + i = c + Nat.succ i from by omega]

/-- C3: the re-dip policy of the emit loop — a redip is inserted immediately
before a dab exactly when the dab counter has reached the count threshold or
the travel threshold is positive and cumulative travel (no contribution
before the first dab) has reached it, both counters resetting at each redip
(the loop equals the spec's sequencer step for step); consequently, with
zero travel and count threshold N > 0, redips appear exactly before every
(kN+1)-th dab, i.e. after every N-th dab. -/
theorem dab_actions_redip_policy :
    (∀ (dist : ℚ → ℚ → ℚ → ℚ → ℚ) (N : ℕ) (T : ℚ) (pts : List (ℚ × ℚ))
      (ds : ℕ) (ts : ℚ) (last : Option (ℚ × ℚ)),
      dab_actions dist N T ds ts last pts = spec_dab_actions dist N T ds ts last pts) ∧
    (∀ (dist : ℚ → ℚ → ℚ → ℚ → ℚ) (N : ℕ) (T : ℚ) (p : ℚ × ℚ) (m : ℕ),
      0 < N → dist p.1 p.2 p.1 p.2 = 0 →
      dab_actions dist N T 0 0 none (List.replicate m p) =
        (List.range m).flatMap (fun i =>
          (if 0 < i ∧ i % N = 0 then [DabAct.redip] else []) ++
            [DabAct.dab p.1 p.2])) := by
  constructor
  · intro dist N T pts
    induction pts with
    | nil =>
      intro ds ts last
      rfl
    | cons p rest ih =>
      intro ds ts last
      cases last with
      | none =>
        simp only [dab_actions, spec_dab_actions, add_zero, ge_iff_le, gt_iff_lt,
          Nat.zero_add, ih]
      | some q =>
        simp only [dab_actions, spec_dab_actions, ge_iff_le, gt_iff_lt,
          Nat.zero_add, ih]
  · intro dist N T p m hN hd
    cases m with
    | zero => rfl
    | succ m =>
      rw [List.replicate_succ, List.range_succ_eq_map, List.flatMap_cons, List.flatMap_map]
      rw [show dab_actions dist N T 0 0 none (p :: List.replicate m p) =
          DabAct.dab p.1 p.2 ::
            dab_actions dist N T 1 0 (some p) (List.replicate m p) from by
        simp only [dab_actions]
        rw [if_neg (by
          rintro (h | ⟨hT, hTle⟩)
          · omega
          · linarith)]]
      rw [dab_actions_replicate_aux dist N T p hN hd m 1 (le_refl 1) (by omega)]
      rw [if_neg (by rintro ⟨h, _⟩; omega)]
      simp only [List.nil_append, List.singleton_append]
      congr 1
      refine List.flatMap_congr (fun i hi => ?_)
      have hiff : (N ≤ 1 + i ∧ (1 + i - N) % N = 0) ↔
          (0 < Nat.succ i ∧ Nat.succ i % N = 0) := by
        rw [mod_shift_equiv N i hN]
        constructor
        · intro hmod
          exact ⟨Nat.succ_pos i, hmod⟩
        · rintro ⟨_, hmod⟩
          exact hmod
      rw [if_congr hiff rfl rfl]

theorem dab_actions_redip_policy_witness :
    (0 < 2 ∧ distZero 0 0 0 0 = 0) ∧
    dab_actions distZero 2 180 0 0 none (List.replicate 5 ((0 : ℚ), (0 : ℚ))) =
      (List.range 5).flatMap (fun i =>
        (if 0 < i ∧ i % 2 = 0 then [DabAct.redip] else []) ++
          [DabAct.dab 0 0]) :=
  ⟨⟨by norm_num, rfl⟩,
    dab_actions_redip_policy.2 distZero 2 180 (0, 0) 5 (by norm_num) rfl⟩

theorem foldl_flatMap {α β γ : Type} (f : α → List β) (g : γ → β → γ) :
    ∀ (l : List α) (init : γ),
    (l.flatMap f).foldl g init = l.foldl (fun acc a => (f a).foldl g acc) init := by
  intro l
  induction l with
  | nil => intro init; rfl
  | cons a rest ih =>
    intro init
    rw [List.flatMap_cons, List.foldl_append, List.foldl_cons, ih]

theorem fs_spec_go_eq_foldl (w h : ℕ) :
    ∀ (l : List (ℕ × ℕ)) (st : List (List ℚ) × List (List ℕ)),
    fs_spec_go w h l st = l.foldl (fun st c => fs_cell w h st c.1 c.2) st := by
  intro l
  induction l with
  | nil => intro st; rfl
  | cons c rest ih =>
    intro st
    rw [List.foldl_cons, ← ih]
    rfl

theorem outBinary_setN2 {o : List (List ℕ)} (ho : outBinary o) {v : ℕ} (hv : v ≤ 1)
    (y x : ℕ) : outBinary (setN2 o y x v) := by
  intro r hr v2 hv2
  rcases List.mem_or_eq_of_mem_set hr with h | h
  · exact ho r h v2 hv2
  · subst h
    rcases List.mem_or_eq_of_mem_set hv2 with h2 | h2
    · rcases hrow : o[y]? with _ | row
      · rw [hrow] at h2
        simp at h2
      · rw [hrow] at h2
        exact ho row (List.getElem?_mem hrow) v2 h2
    · subst h2
      exact hv

theorem outBinary_fs_cell (w h : ℕ) {st : List (List ℚ) × List (List ℕ)}
    (ho : outBinary st.2) (y x : ℕ) : outBinary (fs_cell w h st y x).2 := by
  have : (fs_cell w h st y x).2 =
      setN2 st.2 y x (if 1/2 ≤ get2 st.1 y x then 1 else 0) := rfl
  rw [this]
  refine outBinary_setN2 ho ?_ y x
  split
  · exact le_refl 1
  · exact Nat.zero_le 1

theorem outBinary_foldl (w h : ℕ) (l : List (ℕ × ℕ)) :
    ∀ (st : List (List ℚ) × List (List ℕ)), outBinary st.2 →
    outBinary (l.foldl (fun st c => fs_cell w h st c.1 c.2) st).2 := by
  induction l with
  | nil => intro st ho; exact ho
  | cons c rest ih =>
    intro st ho
    rw [List.foldl_cons]
    exact ih _ (outBinary_fs_cell w h ho c.1 c.2)

/-- C4: the dither pass equals the spec's reference row-major error-diffusion
definition (threshold at 0.5, weights 7/16, 3/16, 5/16, 1/16, out-of-bounds
neighbours skipped), and every output cell is 0 or 1. -/
theorem floyd_steinberg_matches_spec (chan : ℕ → ℕ → ℚ) (w h : ℕ) :
    floyd_steinberg_dither_channel chan w h = fs_spec chan w h ∧
    ∀ y x, getN2 (floyd_steinberg_dither_channel chan w h) y x = 0 ∨
           getN2 (floyd_steinberg_dither_channel chan w h) y x = 1 := by
  have hrun : fs_run chan w h =
      (rowMajor w h).foldl (fun st c => fs_cell w h st c.1 c.2)
        (copyPlane chan w h, zerosPlane w h) := by
    rw [rowMajor, foldl_flatMap]
    simp only [fs_run, List.foldl_map]
  constructor
  · rw [floyd_steinberg_dither_channel, fs_spec, fs_spec_go_eq_foldl, hrun]
  · intro y x
    have hbin : outBinary (floyd_steinberg_dither_channel chan w h) := by
      rw [floyd_steinberg_dither_channel, hrun]
      refine outBinary_foldl w h _ _ ?_
      intro r hr v hv
      rcases List.mem_map.mp hr with ⟨_, _, hrow⟩
      rw [← hrow] at hv
      rw [List.eq_of_mem_replicate hv]
      exact Nat.zero_le 1
    rcases hry : (floyd_steinberg_dither_channel chan w h)[y]? with _ | row
    · left
      simp [getN2, hry]
    · rcases hrx : row[x]? with _ | v
      · left
        simp [getN2, hry, hrx]
      · have hv1 : v ≤ 1 :=
          hbin row (List.getElem?_mem hry) v (List.getElem?_mem hrx)
        have : getN2 (floyd_steinberg_dither_channel chan w h) y x = v := by
          simp [getN2, hry, hrx]
        rw [this]
        omega

theorem zOK_append (a : List Instr) :
    ∀ (z : ℚ) (b : List Instr), zOK z (a ++ b) = (zOK z a && zOK (finalZ z a) b) := by
  induction a with
  | nil =>
    intro z b
    simp [zOK, finalZ]
  | cons i rest ih =>
    intro z b
    rw [List.cons_append]
    simp only [zOK, ih, finalZ, List.foldl_cons, Bool.and_assoc]

theorem finalZ_append (z : ℚ) (a b : List Instr) :
    finalZ z (a ++ b) = finalZ (finalZ z a) b := by
  simp [finalZ, List.foldl_append]

theorem zOK_pickup (st : Station) (z : ℚ) (hz : Z_TRAVEL ≤ z) :
    zOK z (pickup_instrs st) = true ∧ finalZ z (pickup_instrs st) = st.z_safe := by
  constructor
  · simp [pickup_instrs, zOK, trackZ, isXY, hz]
  · simp [pickup_instrs, finalZ, trackZ]

theorem zOK_return (st : Station) (z : ℚ) (hz : Z_TRAVEL ≤ z) :
    zOK z (return_instrs st) = true ∧ finalZ z (return_instrs st) = st.z_safe := by
  constructor
  · simp [return_instrs, zOK, trackZ, isXY, hz]
  · simp [return_instrs, finalZ, trackZ]

theorem zOK_dip (st : Station) (z : ℚ) (hz : Z_TRAVEL ≤ z)
    (hsafe : Z_TRAVEL ≤ st.z_safe) :
    zOK z (dip_instrs st) = true ∧ finalZ z (dip_instrs st) = st.z_safe := by
  constructor
  · simp [dip_instrs, zOK, trackZ, isXY, hz, hsafe]
  · simp [dip_instrs, finalZ, trackZ]

theorem zOK_clean (st : Station) (z : ℚ) (hz : Z_TRAVEL ≤ z) :
    zOK z (clean_instrs st) = true ∧ finalZ z (clean_instrs st) = st.z_safe := by
  constructor
  · simp [clean_instrs, zOK, trackZ, isXY, hz]
  · simp [clean_instrs, finalZ, trackZ]

theorem zOK_paint (x y d z : ℚ) (hz : Z_TRAVEL ≤ z) :
    zOK z (paint_dot_instrs x y d) = true ∧
    finalZ z (paint_dot_instrs x y d) = Z_TRAVEL := by
  constructor
  · simp [paint_dot_instrs, zOK, trackZ, isXY, hz]
  · simp [paint_dot_instrs, finalZ, trackZ]

theorem zOK_acts (st : Station) (hsafe : Z_TRAVEL ≤ st.z_safe) :
    ∀ (acts : List DabAct) (z : ℚ), Z_TRAVEL ≤ z →
    zOK z (acts.flatMap (act_instrs st)) = true ∧
    Z_TRAVEL ≤ finalZ z (acts.flatMap (act_instrs st)) := by
  intro acts
  induction acts with
  | nil =>
    intro z hz
    exact ⟨rfl, hz⟩
  | cons a rest ih =>
    intro z hz
    rw [List.flatMap_cons, zOK_append, finalZ_append]
    cases a with
    | redip =>
      have h1 := zOK_dip st z hz hsafe
      rw [show act_instrs st DabAct.redip = dip_instrs st from rfl, h1.1, h1.2]
      have h2 := ih st.z_safe hsafe
      rw [h2.1]
      exact ⟨rfl, h2.2⟩
    | dab x y =>
      have h1 := zOK_paint x y DAB_DWELL_S z hz
      rw [show act_instrs st (DabAct.dab x y) = paint_dot_instrs x y DAB_DWELL_S from rfl,
        h1.1, h1.2]
      have h2 := ih Z_TRAVEL (le_refl _)
      rw [h2.1]
      exact ⟨rfl, h2.2⟩

theorem zOK_comment (z : ℚ) (s : String) (l : List Instr) :
    zOK z (Instr.comment s :: l) = zOK z l := rfl

theorem finalZ_comment (z : ℚ) (s : String) (l : List Instr) :
    finalZ z (Instr.comment s :: l) = finalZ z l := rfl

theorem zOK_color_block (cp : String → List (ℕ × ℕ)) (gc gr : ℕ)
    (stations : String → Station) (args : GArgs)
    (dist : ℚ → ℚ → ℚ → ℚ → ℚ) (N : ℕ) (T : ℚ) (c : String) (z : ℚ)
    (hz : Z_TRAVEL ≤ z) (hsafe : Z_TRAVEL ≤ (stations c).z_safe) :
    zOK z (color_block cp gc gr stations args dist N T c) = true ∧
    Z_TRAVEL ≤ finalZ z (color_block cp gc gr stations args dist N T c) := by
  simp only [color_block]
  by_cases hpts : cp c = []
  · rw [if_pos hpts]
    exact ⟨rfl, hz⟩
  · rw [if_neg hpts]
    have hclean : (if CLEAN_AT_END = true then clean_instrs (stations c) else []) =
        clean_instrs (stations c) := rfl
    simp only [List.append_assoc, hclean, zOK_comment, finalZ_comment]
    rw [zOK_append, finalZ_append]
    have h1 := zOK_pickup (stations c) z hz
    rw [h1.1, h1.2, zOK_append, finalZ_append]
    have h2 := zOK_dip (stations c) (stations c).z_safe hsafe hsafe
    rw [h2.1, h2.2, zOK_append, finalZ_append]
    have h3 := zOK_acts (stations c) hsafe
      (dab_actions dist N T 0 0 none
        (List.map (fun p => xy_of_pixel args p.1 p.2)
          (List.filter (fun p => decide (p ∈ cp c)) (serpentine_indices gc gr))))
      (stations c).z_safe hsafe
    rw [h3.1, zOK_append, finalZ_append]
    have h4 := zOK_clean (stations c) _ h3.2
    rw [h4.1, h4.2]
    have h5 := zOK_return (stations c) (stations c).z_safe hsafe
    rw [h5.1, h5.2]
    exact ⟨rfl, hsafe⟩

theorem zOK_colors (cp : String → List (ℕ × ℕ)) (gc gr : ℕ)
    (stations : String → Station) (args : GArgs)
    (dist : ℚ → ℚ → ℚ → ℚ → ℚ) (N : ℕ) (T : ℚ)
    (hsafe : ∀ c, Z_TRAVEL ≤ (stations c).z_safe) :
    ∀ (order : List String) (z : ℚ), Z_TRAVEL ≤ z →
    zOK z (order.flatMap (color_block cp gc gr stations args dist N T)) = true ∧
    Z_TRAVEL ≤ finalZ z (order.flatMap (color_block cp gc gr stations args dist N T)) := by
  intro order
  induction order with
  | nil =>
    intro z hz
    exact ⟨rfl, hz⟩
  | cons c rest ih =>
    intro z hz
    rw [List.flatMap_cons, zOK_append, finalZ_append]
    have h1 := zOK_color_block cp gc gr stations args dist N T c z hz (hsafe c)
    rw [h1.1]
    have h2 := ih _ h1.2
    rw [h2.1]
    exact ⟨rfl, h2.2⟩

/-- C1: tracking Z as a running state, every horizontal move instruction of
the emitted stream happens with Z at or above the travel height, and no
instruction carries both an X/Y target and a Z target. -/
theorem safe_height_invariant (cp : String → List (ℕ × ℕ)) (order : List String)
    (gc gr : ℕ) (pal : List String) (args : GArgs)
    (dist : ℚ → ℚ → ℚ → ℚ → ℚ) (N : ℕ) (T : ℚ) (z0 : ℚ) :
    zOK z0 (gen_gcode cp order gc gr (station_of pal) args dist N T) = true ∧
    (gen_gcode cp order gc gr (station_of pal) args dist N T).all
      (fun i => !(isXY i && isZMove i)) = true := by
  constructor
  · rw [gen_gcode, List.append_assoc, zOK_append]
    have hpre : ∀ z : ℚ,
        zOK z [Instr.comment ("(Pointillism painting)"),
          Instr.comment ("(Grid " ++ toString gc ++ "x" ++ toString gr ++ ")"),
          Instr.g21, Instr.g90, Instr.g94, Instr.rapidZ Z_TRAVEL] = true ∧
        finalZ z [Instr.comment ("(Pointillism painting)"),
          Instr.comment ("(Grid " ++ toString gc ++ "x" ++ toString gr ++ ")"),
          Instr.g21, Instr.g90, Instr.g94, Instr.rapidZ Z_TRAVEL] = Z_TRAVEL := by
      intro z
      constructor
      · simp [zOK, trackZ, isXY]
      · simp [finalZ, trackZ]
    rw [(hpre z0).1, (hpre z0).2, zOK_append]
    have hsafe : ∀ c, Z_TRAVEL ≤ (station_of pal c).z_safe := by
      intro c
      show Z_TRAVEL ≤ Z_SAFE
      rw [Z_TRAVEL, Z_SAFE]
      norm_num
    have hcolors := zOK_colors cp gc gr (station_of pal) args dist N T hsafe order
      Z_TRAVEL (le_refl _)
    rw [hcolors.1]
    have hpost : zOK (finalZ Z_TRAVEL
        (order.flatMap (color_block cp gc gr (station_of pal) args dist N T)))
        [Instr.rapidZ Z_TRAVEL, Instr.g0xy 0 0, Instr.m2] = true := by
      simp [zOK, trackZ, isXY]
    rw [hpost]
    rfl
  · rw [List.all_eq_true]
    intro i _
    cases i <;> rfl

/-- C8: a color with zero assigned dabs contributes zero instructions — its
block is empty, and removing it from the color order leaves the emitted
stream unchanged. -/
theorem unused_color_no_instructions (cp : String → List (ℕ × ℕ))
    (order : List String) (gc gr : ℕ) (stations : String → Station)
    (args : GArgs) (dist : ℚ → ℚ → ℚ → ℚ → ℚ) (N : ℕ) (T : ℚ)
    (c : String) (hc : cp c = []) :
    color_block cp gc gr stations args dist N T c = [] ∧
    gen_gcode cp order gc gr stations args dist N T =
      gen_gcode cp (order.erase c) gc gr stations args dist N T := by
  have hblock : color_block cp gc gr stations args dist N T c = [] := by
    simp only [color_block]
    rw [if_pos hc]
  refine ⟨hblock, ?_⟩
  rw [gen_gcode, gen_gcode]
  congr 1
  congr 1
  induction order with
  | nil => rfl
  | cons a rest ih =>
    rw [List.erase_cons]
    by_cases hac : a = c
    · subst hac
      rw [if_pos (by simp), List.flatMap_cons, hblock, List.nil_append]
    · rw [if_neg (by simpa using hac), List.flatMap_cons, List.flatMap_cons, ih]

theorem unused_color_no_instructions_witness :
    cpBlackOnly "white" = [] ∧
    color_block cpBlackOnly 2 2 (station_of COLOR_ORDER_RGB6) argsW
      distZero 120 180 "white" = [] ∧
    gen_gcode cpBlackOnly COLOR_ORDER_RGB6 2 2 (station_of COLOR_ORDER_RGB6)
      argsW distZero 120 180 =
    gen_gcode cpBlackOnly (COLOR_ORDER_RGB6.erase "white") 2 2
      (station_of COLOR_ORDER_RGB6) argsW distZero 120 180 := by
  have h := unused_color_no_instructions cpBlackOnly COLOR_ORDER_RGB6 2 2
    (station_of COLOR_ORDER_RGB6) argsW distZero 120 180 "white" rfl
  exact ⟨rfl, h.1, h.2⟩

theorem addrA_ge (w h y x : ℕ) : w * h ≤ addrA w h y x := by
  simp only [addrA]
  omega

theorem addrC_lt (w h y x : ℕ) (hy : y < h) (hx : x < w) :
    addrC w y x < w * h := by
  simp only [addrC]
  calc y * w + x < y * w + w := by omega
    _ = (y + 1) * w := by ring
    _ ≤ h * w := Nat.mul_le_mul_right w (by omega)
    _ = w * h := Nat.mul_comm h w

theorem foldl_heap_low (w h : ℕ) (F : (ℕ → ℚ) → (ℕ × ℕ) → (ℕ → ℚ))
    (hF : ∀ (m : ℕ → ℚ) (c : ℕ × ℕ) (a : ℕ), a < w * h → F m c a = m a) :
    ∀ (l : List (ℕ × ℕ)) (m : ℕ → ℚ) (a : ℕ), a < w * h →
    (l.foldl F m) a = m a := by
  intro l
  induction l with
  | nil => intro m a _; rfl
  | cons c rest ih =>
    intro m a ha
    rw [List.foldl_cons, ih (F m c) a ha, hF m c a ha]

theorem fs_heap_cell_low (w h : ℕ) (m : ℕ → ℚ) (y x a : ℕ) (ha : a < w * h) :
    fs_heap_cell w h m y x a = m a := by
  have hne : ∀ (y2 x2 : ℕ) (m2 : ℕ → ℚ) (d : ℚ), hAdd m2 (addrA w h y2 x2) d a = m2 a := by
    intro y2 x2 m2 d
    have hgt : a ≠ addrA w h y2 x2 := by
      have := addrA_ge w h y2 x2
      omega
    simp [hAdd, hWrite, hgt]
  simp only [fs_heap_cell]
  simp [apply_ite (fun f : ℕ → ℚ => f a), hne]

theorem fs_heap_copy_low (w h : ℕ) (hp : ℕ → ℚ) (a : ℕ) (ha : a < w * h) :
    fs_heap_copy w h hp a = hp a := by
  refine foldl_heap_low w h _ ?_ (rowMajor w h) hp a ha
  intro m c a2 ha2
  have hgt : a2 ≠ addrA w h c.1 c.2 := by
    have := addrA_ge w h c.1 c.2
    omega
  simp [hWrite, hgt]

/-- C10: the dither pass never writes the caller's channel region — in the
heap model, every address of the input plane holds its original value after
the pass (the pass works on the freshly allocated copy region). -/
theorem dither_does_not_mutate_input (w h : ℕ) (hp : ℕ → ℚ) (y x : ℕ)
    (hy : y < h) (hx : x < w) :
    fs_heap_run w h hp (addrC w y x) = hp (addrC w y x) := by
  have ha : addrC w y x < w * h := addrC_lt w h y x hy hx
  rw [fs_heap_run]
  rw [foldl_heap_low w h _ (fun m c a h2 => fs_heap_cell_low w h m c.1 c.2 a h2)
    (rowMajor w h) _ _ ha]
  exact fs_heap_copy_low w h hp _ ha

theorem dither_does_not_mutate_input_witness :
    (0 < 2 ∧ 0 < 2) ∧
    fs_heap_run 2 2 (fun n => (n : ℚ)) (addrC 2 0 0) = (fun n => (n : ℚ)) (addrC 2 0 0) :=
  ⟨⟨by norm_num, by norm_num⟩,
    dither_does_not_mutate_input 2 2 (fun n => (n : ℚ)) 0 0 (by norm_num) (by norm_num)⟩

/-- C5 (amended): a zero grid-cell pitch aborts the run (division error in
the grid derivation) before any instruction is generated; any nonzero pitch
— including negative values — yields a grid clamped to at least 1×1, so
neither a negative pitch nor a requested zero resolution is reported as an
error. -/
theorem pitch_validation_amended :
    (∀ (img : ℕ → ℕ → ℕ × ℕ × ℕ) (width height margin ox oy : ℚ)
      (dist : ℚ → ℚ → ℚ → ℚ → ℚ),
      runMain_rgb6 img width height margin 0 ox oy dist = none) ∧
    (∀ width height margin pitch : ℚ, pitch ≠ 0 →
      ∃ gc gr : ℕ, mainGrid width height margin pitch = some (gc, gr) ∧
        1 ≤ gc ∧ 1 ≤ gr) := by
  constructor
  · intro img width height margin ox oy dist
    simp [runMain_rgb6, mainGrid]
  · intro width height margin pitch hp
    rw [mainGrid, if_neg hp]
    refine ⟨_, _, rfl, ?_, ?_⟩
    · have h1 : (1 : ℤ) ≤ max 1 (pyRound (max 0 (width - 2 * margin) / pitch)) :=
        le_max_left _ _
      omega
    · have h1 : (1 : ℤ) ≤ max 1 (pyRound (max 0 (height - 2 * margin) / pitch)) :=
        le_max_left _ _
      omega

theorem pitch_validation_amended_witness :
    runMain_rgb6 imgBlack 100 100 0 0 0 0 distZero = none ∧
    ((-3 : ℚ) ≠ 0 ∧ ∃ gc gr : ℕ, mainGrid 100 100 0 (-3) = some (gc, gr) ∧
      1 ≤ gc ∧ 1 ≤ gr) :=
  ⟨pitch_validation_amended.1 imgBlack 100 100 0 0 0 distZero,
    by norm_num, pitch_validation_amended.2 100 100 0 (-3) (by norm_num)⟩

section ConcreteEvaluation

set_option allowUnsafeReducibility true
attribute [local semireducible] Rat.add Rat.mul Rat.sub Rat.div Rat.inv Rat.neg
set_option maxRecDepth 1000000

/-- C5 (counterexample to the claim as stated): with pitch −3 on a 100 mm
canvas the run does not abort — the grid clamps to 1×1 and the pipeline
emits an instruction stream containing an actual paint descent. -/
theorem negative_pitch_emits_instructions :
    mainGrid 100 100 0 (-3) = some (1, 1) ∧
    (runMain_rgb6 imgBlack 100 100 0 (-3) 0 0 distZero).isSome = true ∧
    ((runMain_rgb6 imgBlack 100 100 0 (-3) 0 0 distZero).getD []).any
      (fun i => i = Instr.moveZ Z_PAINT FEED_Z) = true := by
  decide

/-- C7 (counterexample to the claim as stated): on the 16×1 constant-0.3
plane the summed binary output is 3 while the summed input is 24/5 = 4.8,
a deficit of 1.8 > 1 = number of rows. -/
theorem coverage_bound_counterexample :
    ((floyd_steinberg_dither_channel chanC 16 1).map List.sum).sum = 3 ∧
    ((copyPlane chanC 16 1).map List.sum).sum = 24 / 5 ∧
    ¬((24 / 5 : ℚ) - 3 ≤ 1) := by
  decide

/-- C7 (amended): on the spec's synthetic 10×10 constant-0.3 plane the
output ones-count is 29, within the one-dab-per-row tolerance (10) — indeed
within 1 — of the summed input 30. -/
theorem coverage_10x10_within_row_tolerance :
    ((floyd_steinberg_dither_channel chanC 10 10).map List.sum).sum = 29 ∧
    ((copyPlane chanC 10 10).map List.sum).sum = 30 ∧
    ((30 : ℚ) - 10 ≤ 29 ∧ (29 : ℚ) ≤ 30 + 10) := by
  decide

end ConcreteEvaluation

end Pointillism
